import Mathlib

/-!
Verification development for the novelvoice generation-and-delivery pipeline.

The definitions below are shallow embeddings of the Python source:
  * `src/app/audio_generator.py` — segmenter (`_split_content_into_segments`),
    admission manager (`GenerationManager`), the audio stage (`audio_producer`)
    and the front part of `generate_chapter_audio`;
  * `src/app/edgetts_client.py`, `src/app/easyvoice_client.py` — the accepted
    parameter lists of `generate_audio_stream`;
  * `src/app/hls_manager.py` — `HLSManager._get_playlist_duration`,
    `_build_base_ffmpeg_cmd`, `_build_incremental_ffmpeg_cmd`,
    `convert_mp3_to_hls`;
  * `src/app/audio.py` — `stream_chapter` dispatch.

Python strings are modelled as `List Char`; machine text lengths are `Nat`
(Python `len`); media durations are `ℚ` (the source manipulates them as exact
decimal directives read from a playlist).
-/

set_option maxHeartbeats 1000000
set_option maxRecDepth 16384

namespace NovelVoice

/-! ## Python string primitives

`pyIsSpace` is Python's `str.strip` whitespace class (space, tab, newline,
carriage return, vertical tab, form feed). `pyStrip` is `str.strip()`:
drop whitespace from both ends. `splitNl` is `str.split('\n')`:
`"".split('\n') == ['']`, and every `'\n'` starts a new (possibly empty)
piece. -/

abbrev Str := List Char

def pyIsSpace (c : Char) : Bool :=
  c == ' ' || c == '\t' || c == '\n' || c == '\r' ||
  c == Char.ofNat 11 || c == Char.ofNat 12

def pyStrip (s : Str) : Str :=
  ((s.dropWhile pyIsSpace).reverse.dropWhile pyIsSpace).reverse

def splitNl : Str → List Str
  | [] => [[]]
  | c :: cs =>
    if c = '\n' then [] :: splitNl cs
    else
      match splitNl cs with
      | [] => [[c]]
      | t :: ts => (c :: t) :: ts

/-! ## Segmenter: `_split_content_into_segments` (audio_generator.py:206-301)

The staged thresholds: for `segment_index < len(target_lengths)` the source
computes `int(current_target * 0.7)` and `int(current_target * 1.3)`, which
for the targets 200 and 400 evaluate in IEEE-754 double arithmetic to exactly
140, 260, 280 and 520 (each float product rounds to the integer and `int`
truncates); we write the equal `Nat` expressions `t * 7 / 10`, `t * 13 / 10`.
For later segments the source sets `min_length = 200` and
`max_target = default_length` — no 0.7/1.3 scaling. -/

/-- Staged `(current_target, min_length, max_target)` for the segment at
`idx`, with later-segment target `maxLen` (`max_length` in the source). -/
def stagedParams (maxLen idx : Nat) : Nat × Nat × Nat :=
  if idx = 0 then (200, 200 * 7 / 10, 200 * 13 / 10)
  else if idx = 1 then (400, 400 * 7 / 10, 400 * 13 / 10)
  else (maxLen, 200, maxLen)

/-- `potential_length`: length if `p` were appended to `current`
(`len(current) + len(p) + 1` when `current` is nonempty, else `len(p)`). -/
def potentialLen (current p : Str) : Nat :=
  if current = [] then p.length else current.length + p.length + 1

/-- `current_segment += "\n" + paragraph if current_segment else paragraph`. -/
def appendPara (current p : Str) : Str :=
  if current = [] then p else current ++ '\n' :: p

/-- Loop state of the segmenter: produced segments, the accumulating
`current_segment`, and `segment_index`. -/
structure SegState where
  segments : List Str
  current : Str
  segIndex : Nat
deriving Repr, DecidableEq

/-- One iteration of the paragraph loop of `_split_content_into_segments`
(audio_generator.py:239-278), translated branch by branch. -/
def stepPara (maxLen : Nat) (st : SegState) (p : Str) : SegState :=
  let potential := potentialLen st.current p
  let prm := stagedParams maxLen st.segIndex
  if prm.2.2 < potential ∧ st.current ≠ [] then
    if prm.2.1 ≤ st.current.length then
      ⟨st.segments ++ [st.current], p, st.segIndex + 1⟩
    else
      ⟨st.segments, appendPara st.current p, st.segIndex⟩
  else if prm.2.1 ≤ st.current.length ∧ prm.1 < potential then
    ⟨st.segments ++ [st.current], p, st.segIndex + 1⟩
  else
    ⟨st.segments, appendPara st.current p, st.segIndex⟩

/-- `segments.pop(); segments.append(last + "\n" + current)`: merge `cur`
into the last element. -/
def mergeLast : List Str → Str → List Str
  | [], cur => [cur]
  | [s], cur => [s ++ '\n' :: cur]
  | s :: ss, cur => s :: mergeLast ss cur

/-- Post-loop handling of the trailing `current_segment`
(audio_generator.py:281-289): append it, merging into the previous segment
when it is shorter than 100 characters. -/
def finalizeSegments (st : SegState) : List Str :=
  if st.current = [] then st.segments
  else if st.current.length < 100 ∧ st.segments ≠ [] then
    mergeLast st.segments st.current
  else st.segments ++ [st.current]

/-- The local `paragraphs` of `_split_content_into_segments`
(audio_generator.py:227): split on single newlines, strip each piece, keep
the nonempty ones. -/
def paragraphsOf (content : Str) : List Str :=
  ((splitNl content).map pyStrip).filter (· ≠ [])

/-- The local `segments` of `_split_content_into_segments` after the
paragraph loop and the trailing-segment handling
(audio_generator.py:236-289). -/
def segmentsOf (maxLen : Nat) (content : Str) : List Str :=
  finalizeSegments ((paragraphsOf content).foldl (stepPara maxLen) ⟨[], [], 0⟩)

/-- `_split_content_into_segments(content, max_length)`
(audio_generator.py:206-301). The leading guard combines
`not content or not content.strip()` (both reduce to a falsy strip); the
final branch is the `if not segments: segments = [content.strip()]`
fallback. -/
def split_content_into_segments (content : Str) (maxLen : Nat := 1500) : List Str :=
  if pyStrip content = [] then []
  else if paragraphsOf content = [] then []
  else if segmentsOf maxLen content = [] then [pyStrip content]
  else segmentsOf maxLen content

/-! ## The closing rule as worded by the spec (for claim C2)

The spec sentence: "a segment closes when appending the next paragraph would
push it past 1.3×T **and** the accumulated segment is already ≥0.7×T;
otherwise accumulation continues", with staged targets 200 / 400 / 1500. -/

/-- Spec-worded staged target for segment `idx`. -/
def claimTarget (maxLen idx : Nat) : Nat :=
  if idx = 0 then 200 else if idx = 1 then 400 else maxLen

/-- Loop step following the spec's wording of the closing rule, to be
compared against `stepPara` from the source. -/
def claimStepPara (maxLen : Nat) (st : SegState) (p : Str) : SegState :=
  let potential := potentialLen st.current p
  let t := claimTarget maxLen st.segIndex
  if st.current ≠ [] ∧ t * 13 / 10 < potential ∧ t * 7 / 10 ≤ st.current.length then
    ⟨st.segments ++ [st.current], p, st.segIndex + 1⟩
  else
    ⟨st.segments, appendPara st.current p, st.segIndex⟩

/-! ## Admission manager: `GenerationManager` (audio_generator.py:109-173)

`_tasks` is a Python dict `user_id -> {'chapter_id': ..., 'cancel_event': ...}`.
Cancel events (`threading.Event`) are shared objects; we model them as
identifiers into a flag store `flags : Nat → Bool` (`is_set` / `set`).
Every registered task carries an event object, so the `old_cancel_event`
truthiness test of the source is always true and is not modelled. -/

/-- One `_tasks` entry: `{'chapter_id': chapter, 'cancel_event': cancelEvent}`. -/
structure Task where
  chapter : Nat
  cancelEvent : Nat
deriving Repr, DecidableEq

/-- Manager state: the `_tasks` dict as an (insertion-ordered) association
list, plus the `is_set` flags of all cancel events. -/
structure MState where
  tasks : List (Nat × Task)
  flags : Nat → Bool

/-- Python dict read: first (unique) entry with the given key. -/
def dict_get : List (Nat × Task) → Nat → Option Task
  | [], _ => none
  | (k, v) :: rest, u => if k = u then some v else dict_get rest u

/-- Python dict write `d[u] = v`: update the entry in place when the key is
present, else append. -/
def dict_set (l : List (Nat × Task)) (u : Nat) (v : Task) : List (Nat × Task) :=
  if l.any (fun p => p.1 = u) then
    l.map (fun p => if p.1 = u then (u, v) else p)
  else l ++ [(u, v)]

/-- `GenerationManager.register_task(user_id, chapter_id, cancel_event)`
(audio_generator.py:115-139): under the lock, if the user already has a task
for a different chapter whose event is not yet set, set that event; then
record the new task. -/
def register_task (s : MState) (u : Nat) (c : Nat) (e : Nat) : MState :=
  let flags' :=
    match dict_get s.tasks u with
    | some old =>
      if old.chapter ≠ c ∧ s.flags old.cancelEvent = false then
        fun x => if x = old.cancelEvent then true else s.flags x
      else s.flags
    | none => s.flags
  ⟨dict_set s.tasks u ⟨c, e⟩, flags'⟩

/-! ## HLS manager (hls_manager.py)

Playlist lines are either `#EXTINF:<duration>,` directives or other text;
durations are exact rationals. An ffmpeg invocation is recorded by the
options relevant here: `-ss` (source read offset), the optional `-t` bound,
and `-hls_time`. -/

/-- One line of `playlist.m3u8`. -/
inductive M3U8Line where
  | extinf (duration : ℚ)
  | other
deriving Repr, DecidableEq

/-- `HLSManager._get_playlist_duration` (hls_manager.py:68-93): sum the
durations of all `#EXTINF:` lines. -/
def get_playlist_duration (ls : List M3U8Line) : ℚ :=
  ls.foldl (fun acc l => match l with | .extinf d => acc + d | .other => acc) 0

/-- The duration of a single playlist line (0 for non-`#EXTINF` lines). -/
def lineDuration : M3U8Line → ℚ
  | .extinf d => d
  | .other => 0

/-- The ffmpeg options that determine what the external segmenter reads. -/
structure FfmpegCmd where
  ss : ℚ
  readBound : Option ℚ
  hlsTime : ℚ
deriving Repr, DecidableEq

/-- `HLSManager._build_base_ffmpeg_cmd` (hls_manager.py:132-160):
`-ss start_time`, no `-t`, `-hls_time 9999`. -/
def build_base_ffmpeg_cmd (startTime : ℚ) : FfmpegCmd :=
  ⟨startTime, none, 9999⟩

/-- `HLSManager._build_incremental_ffmpeg_cmd` (hls_manager.py:162-195):
`duration = 60 if start_time > 0 else 12`, `slice = 60 if start_time > 0
else 6`; `-ss start_time -t duration -hls_time slice`. -/
def build_incremental_ffmpeg_cmd (startTime : ℚ) : FfmpegCmd :=
  ⟨startTime, some (if 0 < startTime then 60 else 12), if 0 < startTime then 60 else 6⟩

/-- Result of `HLSManager.convert_mp3_to_hls`: early return without invoking
ffmpeg (missing MP3, or playlist already sealed), or an ffmpeg invocation. -/
inductive ConvResult where
  | noFile
  | alreadyReady
  | ran (cmd : FfmpegCmd)
deriving Repr, DecidableEq

/-- `HLSManager.convert_mp3_to_hls(mp3_path, timestamp, is_generating)`
(hls_manager.py:197-293), the path where the conversion lock is acquired:
check the MP3 exists, check `is_hls_ready` (playlist sealed), then
`start_time = (_get_playlist_duration(playlist) if existing_segments > 0
else 0) + timestamp` and invoke the incremental or base command. -/
def convert_mp3_to_hls (mp3Exists hlsReady : Bool) (segCount : Nat)
    (playlist : List M3U8Line) (timestamp : ℚ) (isGenerating : Bool) : ConvResult :=
  if !mp3Exists then .noFile
  else if hlsReady then .alreadyReady
  else
    let startTime := (if 0 < segCount then get_playlist_duration playlist else 0) + timestamp
    if isGenerating then .ran (build_incremental_ffmpeg_cmd startTime)
    else .ran (build_base_ffmpeg_cmd startTime)

/-! ## Audio stage of `generate_chapter_audio` (audio_generator.py:613-778)

Two branches of the `audio_producer` dequeue loop are embedded: the
`('done', ...)` branch and the `Script` branch. The `Script` branch calls
`client.generate_audio_stream(voice_script, [cancel_event=...,]
start_item=..., progress_callback=...)`; the accepted keyword parameters of
`generate_audio_stream` come from the client sources. A Python call whose
keyword arguments are not all accepted parameters raises `TypeError` at the
call site; in `audio_producer` that lands in the `except` of lines 739-744,
which records the error and `continue`s (the segment is skipped). -/

/-- Keyword parameters accepted by `generate_audio_stream` after `self`:
`EasyVoiceClient.generate_audio_stream(self, voice_script)`
(easyvoice_client.py:19) and
`EdgeTTSClient.generate_audio_stream(self, voice_script, cancel_event=None)`
(edgetts_client.py:16). -/
def generate_audio_stream_accepts (useEasyvoice : Bool) : List String :=
  if useEasyvoice then ["voice_script"] else ["voice_script", "cancel_event"]

/-- Keyword argument names passed by `audio_producer`
(audio_generator.py:696-700 for EasyVoice, 718-723 for EdgeTTS). -/
def audio_producer_call_kwargs (useEasyvoice : Bool) : List String :=
  if useEasyvoice then ["start_item", "progress_callback"]
  else ["cancel_event", "start_item", "progress_callback"]

/-- A Python call binds only when every keyword argument names an accepted
parameter; otherwise it raises `TypeError`. -/
def kwargsBind (params kwargs : List String) : Bool :=
  kwargs.all (fun k => params.contains k)

/-- Observable effects of handling one `Script` queue message. -/
structure ScriptEffects where
  raisedTypeError : Bool
  bytesFlushed : List Nat
  checkpointsSaved : List (Nat × Nat)
  errorRecorded : Bool
  continuedLoop : Bool
deriving Repr, DecidableEq

/-- The `Script` branch of `audio_producer` (audio_generator.py:668-744) for
one message: construct the client's generator with the keyword arguments of
lines 696-700 / 718-723. When the call binds, the branch behaves as some
successful run `normalRun`; when it does not bind, the `TypeError` is caught
at line 739, the error container is set and the loop `continue`s — nothing
is flushed and no checkpoint is saved. -/
def audio_script_step (useEasyvoice : Bool) (normalRun : ScriptEffects) : ScriptEffects :=
  if kwargsBind (generate_audio_stream_accepts useEasyvoice)
      (audio_producer_call_kwargs useEasyvoice) then normalRun
  else
    { raisedTypeError := true, bytesFlushed := [], checkpointsSaved := [],
      errorRecorded := true, continuedLoop := true }

/-- Observable effects of handling the `('done', ...)` queue message. -/
structure DoneEffects where
  markedComplete : Bool
  checkpointDeleted : Bool
  completeEventSet : Bool
  taskCleared : Bool
  exitedLoop : Bool
deriving Repr, DecidableEq

/-- The `('done', ...)` branch of `audio_producer`
(audio_generator.py:635-665): fetch the chapter; when it exists and
`error_container['error']` is unset, mark the audio status complete and
delete the resume checkpoint, otherwise skip both; always set the completion
event, clear the task from the manager, and `break` out of the loop. -/
def audio_done_step (chapterExists : Bool) (errorRecorded : Option String) : DoneEffects :=
  let ok := chapterExists && errorRecorded.isNone
  { markedComplete := ok, checkpointDeleted := ok,
    completeEventSet := true, taskCleared := true, exitedLoop := true }

/-! ## Front part of `generate_chapter_audio` (audio_generator.py:449-524)

The function marks the chapter `generating`, then reads the chapter text
inside a `try`. The `except` (lines 504-510) marks the chapter `failed` and
then executes `error_container['error'] = str(e)` — but `error_container`
is first bound at line 520, after the `try`, so on this path the name is
unbound and the assignment raises `NameError` out of the function, before
`register_task` (line 524) and before the worker threads are started
(lines 781-785). -/

/-- Python exceptions distinguished by the embedding. -/
inductive PyExc where
  | nameError (name : String)
  | reraised (msg : String)
deriving Repr, DecidableEq

/-- Local names of `generate_chapter_audio` already bound when the `except`
at audio_generator.py:504 runs (assigned in lines 466-503);
`error_container` is absent — it is bound only at line 520. -/
def locals_before_except : List String :=
  ["resume_data", "start_segment", "start_item", "file_mode",
   "chapter", "novel", "all_chapters", "current_index", "end_position"]

/-- Observable outcome of one call of `generate_chapter_audio`. -/
structure GenOutcome where
  statusHistory : List String
  raised : Option PyExc
  taskRegistered : Bool
  threadsStarted : Nat
deriving Repr, DecidableEq

/-- `generate_chapter_audio` (audio_generator.py:449-785) as a function of
the result of reading the chapter text: on success the task is registered
and the two worker threads start; on a read exception the status is set to
`failed` and the write to `error_container` raises — `NameError` since the
name is not yet bound (were it bound, line 510 would re-raise the original
exception instead). -/
def generate_chapter_audio (readChapter : Except String Str) : GenOutcome :=
  match readChapter with
  | .error e =>
    if locals_before_except.contains "error_container" then
      { statusHistory := ["generating", "failed"], raised := some (.reraised e),
        taskRegistered := false, threadsStarted := 0 }
    else
      { statusHistory := ["generating", "failed"],
        raised := some (.nameError "error_container"),
        taskRegistered := false, threadsStarted := 0 }
  | .ok _ =>
    { statusHistory := ["generating"], raised := none,
      taskRegistered := true, threadsStarted := 2 }

/-! ## Delivery: `stream_chapter` (audio.py:339-741)

`stream_chapter(app, chapter_id)` dispatches on the persisted audio status
and file existence; the HTTP request's byte-range header is never read
anywhere in the function (nor anywhere else under `src/app`). The response
vocabulary includes the 2-byte placeholder partial-content response that the
spec describes, so that its absence can be stated. -/

/-- An inbound delivery request, carrying an optional byte range. -/
structure HttpReq where
  range : Option (Nat × Nat)
deriving Repr, DecidableEq

/-- Responses of the delivery path. `placeholder206` (a fixed 2-byte frame
with a partial-content status) appears in the spec but in no source path. -/
inductive StreamResp where
  | sendFullFile
  | growingStream
  | errorLoading
  | chunkedGeneration
  | placeholder206
deriving Repr, DecidableEq

/-- `stream_chapter` (audio.py:339-741): complete file → `send_file`;
generating file → tail the growing file; otherwise start a new generation
(500 when reading the chapter content fails, else the chunked streaming
response). The request is never consulted. -/
def stream_chapter (status : String) (fileExists readOk : Bool)
    (_req : HttpReq) : StreamResp :=
  if status = "complete" ∧ fileExists then .sendFullFile
  else if status = "generating" ∧ fileExists then .growingStream
  else if !readOk then .errorLoading
  else .chunkedGeneration

/-! ## Basic facts about the staged thresholds -/

/-- The staged target never exceeds the staged overflow bound. -/
theorem stagedParams_target_le_max (maxLen idx : Nat) :
    (stagedParams maxLen idx).1 ≤ (stagedParams maxLen idx).2.2 := by
  unfold stagedParams
  split_ifs <;> simp

/-- The staged minimum length is positive. -/
theorem stagedParams_min_pos (maxLen idx : Nat) :
    0 < (stagedParams maxLen idx).2.1 := by
  unfold stagedParams
  split_ifs <;> simp

/-- Claim C2 (amended): a segment is closed by the paragraph loop exactly
when the accumulated segment is nonempty, its length is at least the staged
minimum (`0.7×T` for segments 0 and 1, `200` afterward), and appending the
next paragraph would push the length past the staged target `T` itself
(200 / 400 / `max_length`); the `1.3×T` overflow test of the first branch is
subsumed by this condition. In every other case the paragraph is appended. -/
theorem stepPara_closes_iff (maxLen : Nat) (st : SegState) (p : Str) :
    stepPara maxLen st p =
      if st.current ≠ [] ∧ (stagedParams maxLen st.segIndex).2.1 ≤ st.current.length ∧
          (stagedParams maxLen st.segIndex).1 < potentialLen st.current p
      then ⟨st.segments ++ [st.current], p, st.segIndex + 1⟩
      else ⟨st.segments, appendPara st.current p, st.segIndex⟩ := by
  have hmx := stagedParams_target_le_max maxLen st.segIndex
  have hm := stagedParams_min_pos maxLen st.segIndex
  simp only [stepPara]
  by_cases hD : st.current ≠ [] ∧ (stagedParams maxLen st.segIndex).2.1 ≤ st.current.length ∧
      (stagedParams maxLen st.segIndex).1 < potentialLen st.current p
  · rw [if_pos hD]
    by_cases hA : (stagedParams maxLen st.segIndex).2.2 < potentialLen st.current p ∧
        st.current ≠ []
    · rw [if_pos hA, if_pos hD.2.1]
    · rw [if_neg hA, if_pos ⟨hD.2.1, hD.2.2⟩]
  · rw [if_neg hD]
    by_cases hA : (stagedParams maxLen st.segIndex).2.2 < potentialLen st.current p ∧
        st.current ≠ []
    · rw [if_pos hA, if_neg fun hB => hD ⟨hA.2, hB, lt_of_le_of_lt hmx hA.1⟩]
    · rw [if_neg hA,
        if_neg fun hC => hD ⟨List.length_pos.mp (lt_of_lt_of_le hm hC.1), hC.1, hC.2⟩]

/-- Claim C2 (counterexample): at the concrete loop state with an
accumulated 150-character segment 0 and a next 100-character paragraph, the
potential length 251 does not exceed `1.3×200 = 260`, so the spec's rule
appends — but the source closes the segment (the accumulated 150 ≥ 140 and
251 > 200). -/
theorem claim_closing_rule_counterexample :
    (claimStepPara 1500 ⟨[], List.replicate 150 'a', 0⟩
        (List.replicate 100 'b')).segments = [] ∧
    (stepPara 1500 ⟨[], List.replicate 150 'a', 0⟩
        (List.replicate 100 'b')).segments = [List.replicate 150 'a'] := by
  constructor <;> rfl

/-! ## Claim C4: HLS incremental start offset -/

/-- The playlist duration fold equals the sum of the per-line durations. -/
theorem get_playlist_duration_eq_sum (ls : List M3U8Line) :
    get_playlist_duration ls = (ls.map lineDuration).sum := by
  suffices h : ∀ a : ℚ, ls.foldl
      (fun acc l => match l with | .extinf d => acc + d | .other => acc) a
      = a + (ls.map lineDuration).sum by
    simpa [get_playlist_duration] using h 0
  induction ls with
  | nil => simp
  | cons l rest ih =>
    intro a
    cases l with
    | extinf d => simp only [List.foldl_cons, List.map_cons, List.sum_cons, ih, lineDuration]; ring
    | other => simp [ih, lineDuration]

/-- Claim C4: when the MP3 exists, the playlist is not yet sealed and at
least one segment file has been emitted, an incremental conversion with
extra offset `t` invokes the external segmenter with source read offset
`-ss` equal to `D + t`, where `D` — the value of the duration-summing
function — is the sum of all `#EXTINF` durations in the playlist. -/
theorem convert_incremental_starts_at_duration_plus_offset
    (playlist : List M3U8Line) (t : ℚ) (n : Nat) (hn : 0 < n) :
    convert_mp3_to_hls true false n playlist t true
      = .ran (build_incremental_ffmpeg_cmd (get_playlist_duration playlist + t)) ∧
    (build_incremental_ffmpeg_cmd (get_playlist_duration playlist + t)).ss
      = get_playlist_duration playlist + t ∧
    get_playlist_duration playlist = (playlist.map lineDuration).sum := by
  refine ⟨?_, rfl, get_playlist_duration_eq_sum playlist⟩
  simp [convert_mp3_to_hls, hn]

/-- Witness for claim C4 on a concrete playlist: durations 6 and 7/2 with
two emitted segments and extra offset 2 start the segmenter at 23/2. -/
theorem convert_incremental_witness :
    convert_mp3_to_hls true false 2
        [M3U8Line.extinf 6, M3U8Line.other, M3U8Line.extinf (7/2)] 2 true
      = .ran (build_incremental_ffmpeg_cmd (23/2)) := by
  have h := convert_incremental_starts_at_duration_plus_offset
    [M3U8Line.extinf 6, M3U8Line.other, M3U8Line.extinf (7/2)] 2 2 (by norm_num)
  have hd : get_playlist_duration
      [M3U8Line.extinf 6, M3U8Line.other, M3U8Line.extinf (7/2)] + 2 = 23/2 := by
    norm_num [get_playlist_duration]
  rw [h.1, hd]

/-! ## Claim C5: handling of the `Done` queue message -/

/-- Claim C5 (counterexample): when an utterance failure has recorded an
error before `Done` is dequeued, the branch exits the loop but does not mark
the chapter complete and does not delete the checkpoint. -/
theorem done_with_error_counterexample :
    (audio_done_step true (some "TypeError")).markedComplete = false ∧
    (audio_done_step true (some "TypeError")).checkpointDeleted = false ∧
    (audio_done_step true (some "TypeError")).exitedLoop = true := by
  refine ⟨rfl, rfl, rfl⟩

/-- Claim C5 (amended): dequeuing `Done` always exits the loop, sets the
completion event and clears the task; the chapter is marked complete and the
checkpoint deleted exactly when the chapter row exists and no error has been
recorded. -/
theorem done_step_behavior (chapterExists : Bool) (errorRecorded : Option String) :
    (audio_done_step chapterExists errorRecorded).exitedLoop = true ∧
    (audio_done_step chapterExists errorRecorded).completeEventSet = true ∧
    (audio_done_step chapterExists errorRecorded).taskCleared = true ∧
    ((audio_done_step chapterExists errorRecorded).markedComplete = true ↔
      chapterExists = true ∧ errorRecorded = none) ∧
    ((audio_done_step chapterExists errorRecorded).checkpointDeleted = true ↔
      chapterExists = true ∧ errorRecorded = none) := by
  cases chapterExists <;> cases errorRecorded <;>
    simp [audio_done_step]

/-! ## Claim C1: the resume path of the audio stage -/

/-- Claim C1 (code evaluated at the failing input): for both synthesis
backends, the keyword arguments `start_item` and `progress_callback` passed
by `audio_producer` are not accepted parameters of
`generate_audio_stream`, so the call raises `TypeError` for every `Script`
message regardless of what a successful run would have produced: no bytes
are flushed, the checkpoint callback is never invoked, the error container
is set and the segment is skipped. The resume invariant of the claim —
restart appends exactly the bytes of the items after the checkpoint, driven
by per-utterance checkpoint callbacks and the resume item offset — is
therefore unsatisfiable in the code as written. -/
theorem script_call_never_binds (normalRun : ScriptEffects) :
    kwargsBind (generate_audio_stream_accepts false) (audio_producer_call_kwargs false)
      = false ∧
    kwargsBind (generate_audio_stream_accepts true) (audio_producer_call_kwargs true)
      = false ∧
    audio_script_step false normalRun
      = ⟨true, [], [], true, true⟩ ∧
    audio_script_step true normalRun
      = ⟨true, [], [], true, true⟩ := by
  refine ⟨by decide, by decide, ?_, ?_⟩ <;>
    simp [audio_script_step, kwargsBind, generate_audio_stream_accepts,
      audio_producer_call_kwargs]

/-! ## Claim C7: the 2-byte probe -/

/-- Claim C7 (counterexample): a delivery request for the byte range
`[0, 1]` against a completed chapter is answered with the full file, not
with a 2-byte placeholder partial-content response. -/
theorem probe_request_counterexample :
    stream_chapter "complete" true true ⟨some (0, 1)⟩ = StreamResp.sendFullFile ∧
    StreamResp.sendFullFile ≠ StreamResp.placeholder206 := by
  exact ⟨rfl, by decide⟩

/-- Claim C7 (amended): `stream_chapter` never consults the request's byte
range — a `[0, 1]` probe is served exactly like a rangeless request — and no
input produces the placeholder partial-content response. -/
theorem stream_chapter_ignores_range (status : String) (fileExists readOk : Bool)
    (req : HttpReq) :
    stream_chapter status fileExists readOk req
      = stream_chapter status fileExists readOk ⟨none⟩ ∧
    stream_chapter status fileExists readOk req ≠ StreamResp.placeholder206 := by
  unfold stream_chapter
  split_ifs <;> simp

/-! ## Claim C9: input without paragraphs -/

/-- Claim C9 (counterexample): for the input consisting of a single newline
— both of whose lines strip to empty, so it contains no paragraphs — the
segmenter returns the empty list, not the trimmed whole text as a single
segment. -/
theorem no_paragraphs_counterexample :
    paragraphsOf ['\n'] = [] ∧
    split_content_into_segments ['\n'] 1500 = [] ∧
    split_content_into_segments ['\n'] 1500 ≠ [pyStrip ['\n']] := by
  refine ⟨rfl, rfl, by decide⟩

/-- Claim C9 (amended): for every input in which no paragraph survives
stripping, the segmenter returns the empty list; the single-segment
trimmed-text fallback of the source is not reached. -/
theorem split_no_paragraphs_eq_nil (content : Str) (maxLen : Nat)
    (h : paragraphsOf content = []) :
    split_content_into_segments content maxLen = [] := by
  unfold split_content_into_segments
  rcases eq_or_ne (pyStrip content) [] with h0 | h0
  · rw [if_pos h0]
  · rw [if_neg h0, if_pos h]

/-- Witness for the amended claim C9 at the single-newline input. -/
theorem split_no_paragraphs_witness :
    split_content_into_segments ['\n'] 1500 = [] :=
  split_no_paragraphs_eq_nil ['\n'] 1500 (by rfl)

/-! ## Claim C10: failure while reading the chapter text -/

/-- Claim C10: when reading the chapter text raises, `generate_chapter_audio`
records status `generating` then `failed`, raises `NameError` to its caller
(the write to `error_container` precedes that name's binding), registers no
task in the admission manager and starts no worker threads. -/
theorem generate_chapter_audio_read_failure (e : String) :
    generate_chapter_audio (.error e)
      = { statusHistory := ["generating", "failed"],
          raised := some (.nameError "error_container"),
          taskRegistered := false, threadsStarted := 0 } := by
  rfl

/-! ## Claim C3: admission supersession -/

/-- A successful dict read means the key occurs in the dict. -/
theorem dict_get_mem_key {l : List (Nat × Task)} {u : Nat} {v : Task}
    (h : dict_get l u = some v) : l.any (fun p => p.1 = u) = true := by
  induction l with
  | nil => simp [dict_get] at h
  | cons hd rest ih =>
    obtain ⟨k, w⟩ := hd
    by_cases hk : k = u
    · simp [hk]
    · rw [dict_get, if_neg hk] at h
      simp [ih h]

/-- Entries whose key differs from `u` are untouched by the in-place update
and discarded by the key filter. -/
theorem filter_map_update_of_not_mem {u : Nat} {v : Task}
    (l : List (Nat × Task)) (hl : ∀ p ∈ l, p.1 ≠ u) :
    (l.map (fun p => if p.1 = u then (u, v) else p)).filter (fun p => p.1 = u) = [] := by
  induction l with
  | nil => rfl
  | cons hd rest ih =>
    have hhd : hd.1 ≠ u := hl hd (List.mem_cons_self hd rest)
    rw [List.map_cons, if_neg hhd, List.filter_cons, if_neg (by simp [hhd])]
    exact ih fun p hp => hl p (List.mem_cons_of_mem hd hp)

/-- In a dict with (unique-key) occurrences, the in-place update leaves
exactly one entry for the updated key. -/
theorem filter_dict_update {u : Nat} {v : Task} :
    ∀ l : List (Nat × Task), (l.map Prod.fst).Nodup →
      l.any (fun p => p.1 = u) = true →
      (l.map (fun p => if p.1 = u then (u, v) else p)).filter (fun p => p.1 = u)
        = [(u, v)] := by
  intro l
  induction l with
  | nil => intro _ h; simp at h
  | cons hd rest ih =>
    intro hnd hany
    obtain ⟨k, w⟩ := hd
    rw [List.map_cons] at hnd
    obtain ⟨hk_not, hnd_rest⟩ := List.nodup_cons.mp hnd
    by_cases hk : k = u
    · rw [List.map_cons, if_pos hk, List.filter_cons, if_pos (by simp),
        filter_map_update_of_not_mem rest fun p hp hpu => hk_not (by
          show k ∈ rest.map Prod.fst
          rw [hk, ← hpu]
          exact List.mem_map_of_mem Prod.fst hp)]
    · rw [List.map_cons, if_neg hk, List.filter_cons, if_neg (by simp [hk])]
      apply ih hnd_rest
      rw [List.any_cons] at hany
      simpa [hk] using hany

/-- Claim C3: when user `U` holds an active task for chapter `X` (cancel
event `eX`) and a task for a different chapter `Y` is registered, the old
task's cancel flag ends up set and the admission map afterwards holds
exactly one entry for `U` — the task for chapter `Y`. -/
theorem register_supersedes (s : MState) (U X Y eX eNew : Nat)
    (hget : dict_get s.tasks U = some ⟨X, eX⟩) (hne : X ≠ Y)
    (hnd : (s.tasks.map Prod.fst).Nodup) :
    (register_task s U Y eNew).flags eX = true ∧
    (register_task s U Y eNew).tasks.filter (fun p => p.1 = U)
      = [(U, ⟨Y, eNew⟩)] := by
  constructor
  · simp only [register_task, hget]
    by_cases hf : s.flags eX = true
    · rw [if_neg]
      · exact hf
      · simp [hf]
    · rw [if_pos]
      · simp
      · exact ⟨hne, by simpa using hf⟩
  · simp only [register_task, dict_set, dict_get_mem_key hget, if_pos]
    exact filter_dict_update s.tasks hnd (dict_get_mem_key hget)

/-- Witness for claim C3: user 7 holds a task for chapter 3 with cancel
event 0; registering chapter 5 with event 1 sets event 0 and leaves the
single entry `(7, task 5)`. -/
theorem register_supersedes_witness :
    (register_task ⟨[(7, ⟨3, 0⟩)], fun _ => false⟩ 7 5 1).flags 0 = true ∧
    (register_task ⟨[(7, ⟨3, 0⟩)], fun _ => false⟩ 7 5 1).tasks.filter
        (fun p => p.1 = 7) = [(7, ⟨5, 1⟩)] :=
  register_supersedes ⟨[(7, ⟨3, 0⟩)], fun _ => false⟩ 7 3 5 0 1 rfl
    (by decide) (by decide)

/-! ## Claim C6: length of the first segment -/

/-- Loop invariant for the first produced segment: while no segment has
been closed the staged index is still 0, and once one has been closed the
head of the segment list is at least 140 characters long (the staged
minimum of segment 0). -/
def headBound (st : SegState) : Prop :=
  (st.segments = [] → st.segIndex = 0) ∧
  ∀ h, st.segments.head? = some h → 140 ≤ h.length

/-- One loop iteration preserves the first-segment invariant. -/
theorem headBound_step (maxLen : Nat) (st : SegState) (p : Str)
    (hB : headBound st) : headBound (stepPara maxLen st p) := by
  rw [stepPara_closes_iff]
  split_ifs with hC
  · constructor
    · intro habs
      exact absurd habs (by simp)
    · intro h hh
      rcases hseg : st.segments with _ | ⟨s, ss⟩
      · rw [hseg] at hh
        simp only [List.nil_append, List.head?_cons, Option.some.injEq] at hh
        subst hh
        have hidx : st.segIndex = 0 := hB.1 hseg
        have := hC.2.1
        rw [hidx] at this
        simpa [stagedParams] using this
      · rw [hseg] at hh
        simp only [List.cons_append, List.head?_cons, Option.some.injEq] at hh
        subst hh
        exact hB.2 _ (by rw [hseg]; rfl)
  · exact hB

/-- The loop preserves the first-segment invariant across any paragraph
list. -/
theorem headBound_foldl (maxLen : Nat) :
    ∀ (ps : List Str) (st : SegState), headBound st →
      headBound (ps.foldl (stepPara maxLen) st) := by
  intro ps
  induction ps with
  | nil => intro st h; exact h
  | cons p rest ih => intro st h; exact ih _ (headBound_step maxLen st p h)

/-- Merging the trailing segment does not change the number of segments. -/
theorem mergeLast_length (cur : Str) :
    ∀ l : List Str, l ≠ [] → (mergeLast l cur).length = l.length := by
  intro l
  induction l with
  | nil => intro h; exact absurd rfl h
  | cons s ss ih =>
    intro _
    cases ss with
    | nil => rfl
    | cons s' ss' => simpa [mergeLast] using ih (by simp)

/-- When at least two segments were produced, the first is a segment closed
by the loop and is at least 140 characters long. -/
theorem finalize_head_bound (st : SegState) (hB : headBound st) (s0 : Str)
    (hcnt : 2 ≤ (finalizeSegments st).length)
    (hhead : (finalizeSegments st).head? = some s0) : 140 ≤ s0.length := by
  unfold finalizeSegments at hcnt hhead
  split_ifs at hcnt hhead with h1 h2
  · exact hB.2 s0 hhead
  · rcases hseg : st.segments with _ | ⟨s, _ | ⟨s', ss⟩⟩
    · exact absurd hseg h2.2
    · rw [hseg] at hcnt
      simp [mergeLast] at hcnt
    · rw [hseg] at hhead
      simp only [mergeLast, List.head?_cons, Option.some.injEq] at hhead
      subst hhead
      exact hB.2 _ (by rw [hseg]; rfl)
  · rcases hseg : st.segments with _ | ⟨s, ss⟩
    · rw [hseg] at hcnt
      simp at hcnt
    · rw [hseg] at hhead
      simp only [List.cons_append, List.head?_cons, Option.some.injEq] at hhead
      subst hhead
      exact hB.2 _ (by rw [hseg]; rfl)

/-- Claim C6 (amended): for content longer than 200 characters, whenever
the segmenter produces at least two segments the first one is at least 140
characters long. The unconditional interval `[140, 260]` of the claim does
not hold: splits happen only at paragraph boundaries, so a single long
paragraph becomes a single arbitrarily long first segment. -/
theorem first_segment_lower_bound (content : Str) (s0 : Str)
    (_hlen : 200 < content.length)
    (hcnt : 2 ≤ (split_content_into_segments content 1500).length)
    (hhead : (split_content_into_segments content 1500).head? = some s0) :
    140 ≤ s0.length := by
  unfold split_content_into_segments at hcnt hhead
  split_ifs at hcnt hhead with h0 hp hs
  · simp at hcnt
  · simp at hcnt
  · simp at hcnt
  · exact finalize_head_bound _
      (headBound_foldl 1500 (paragraphsOf content) ⟨[], [], 0⟩
        ⟨fun _ => rfl, fun h hh => by simp at hh⟩)
      s0 hcnt hhead

/-- Claim C6 (counterexample): a single 261-character paragraph is content
longer than 200 characters whose first (and only) segment has length 261,
outside `[140, 260]`. -/
theorem first_segment_interval_counterexample :
    200 < (List.replicate 261 'a').length ∧
    (split_content_into_segments (List.replicate 261 'a') 1500).map List.length
      = [261] ∧
    ¬ (140 ≤ 261 ∧ 261 ≤ 260) := by
  refine ⟨by simp, rfl, by omega⟩

/-- Witness for the amended claim C6: a 150-character paragraph followed by
a 100-character paragraph (251 characters of content) splits into two
segments whose first has length 150 ≥ 140. -/
theorem first_segment_lower_bound_witness :
    140 ≤ (List.replicate 150 'a').length :=
  first_segment_lower_bound
    (List.replicate 150 'a' ++ '\n' :: List.replicate 100 'b')
    (List.replicate 150 'a')
    (by simp)
    (by rfl)
    (by rfl)

/-! ## Claim C8: segmentation round-trip -/

/-- `str.split` never returns an empty list. -/
theorem splitNl_ne_nil (l : Str) : splitNl l ≠ [] := by
  induction l with
  | nil => simp [splitNl]
  | cons c cs ih =>
    by_cases hc : c = '\n'
    · simp [splitNl, hc]
    · rcases h : splitNl cs with _ | ⟨t, ts⟩
      · exact absurd h ih
      · simp [splitNl, hc, h]

/-- Unfolding `splitNl` over a non-newline head character. -/
theorem splitNl_cons_of_ne {c : Char} (cs : Str) {t : Str} {ts : List Str}
    (hc : c ≠ '\n') (h : splitNl cs = t :: ts) :
    splitNl (c :: cs) = (c :: t) :: ts := by
  simp [splitNl, hc, h]

/-- Splitting distributes over a newline join: the pieces of `a ++ '\n' :: b`
are the pieces of `a` followed by the pieces of `b`. -/
theorem splitNl_append_nl (a b : Str) :
    splitNl (a ++ '\n' :: b) = splitNl a ++ splitNl b := by
  induction a with
  | nil => simp [splitNl]
  | cons c a' ih =>
    by_cases hc : c = '\n'
    · subst hc
      simp [splitNl, ih]
    · rcases h : splitNl a' with _ | ⟨t, ts⟩
      · exact absurd h (splitNl_ne_nil a')
      · rw [List.cons_append,
          splitNl_cons_of_ne (a' ++ '\n' :: b) hc (by rw [ih, h]; rfl),
          splitNl_cons_of_ne a' hc h]
        simp

/-- A newline-free string splits into itself as the single piece. -/
theorem splitNl_of_not_mem {l : Str} (h : '\n' ∉ l) : splitNl l = [l] := by
  induction l with
  | nil => rfl
  | cons c cs ih =>
    have hc : c ≠ '\n' := fun he => h (he ▸ List.mem_cons_self c cs)
    exact splitNl_cons_of_ne cs hc (ih fun hm => h (List.mem_cons_of_mem c hm))

/-- A split result is always a nonempty list of pieces. -/
theorem splitNl_exists_cons (cs : Str) : ∃ t ts, splitNl cs = t :: ts := by
  rcases h : splitNl cs with _ | ⟨t, ts⟩
  · exact absurd h (splitNl_ne_nil cs)
  · exact ⟨t, ts, rfl⟩

/-- Characters of a split piece are characters of the split string. -/
theorem mem_of_mem_splitNl {x : Char} :
    ∀ {l t : Str}, t ∈ splitNl l → x ∈ t → x ∈ l := by
  intro l
  induction l with
  | nil =>
    intro t ht hx
    simp [splitNl] at ht
    subst ht
    simp at hx
  | cons c cs ih =>
    intro t ht hx
    by_cases hc : c = '\n'
    · rw [hc] at ht ⊢
      simp [splitNl] at ht
      rcases ht with rfl | ht
      · simp at hx
      · exact List.mem_cons_of_mem _ (ih ht hx)
    · obtain ⟨t0, ts, h⟩ := splitNl_exists_cons cs
      rw [splitNl_cons_of_ne cs hc h] at ht
      rcases List.mem_cons.mp ht with rfl | hts
      · rcases List.mem_cons.mp hx with rfl | hx0
        · exact List.mem_cons_self x cs
        · exact List.mem_cons_of_mem c (ih (h ▸ List.mem_cons_self t0 ts) hx0)
      · exact List.mem_cons_of_mem c (ih (h ▸ List.mem_cons_of_mem t0 hts) hx)

/-- No split piece contains the newline delimiter. -/
theorem not_nl_mem_splitNl :
    ∀ {l t : Str}, t ∈ splitNl l → '\n' ∉ t := by
  intro l
  induction l with
  | nil =>
    intro t ht
    simp [splitNl] at ht
    subst ht
    simp
  | cons c cs ih =>
    intro t ht
    by_cases hc : c = '\n'
    · rw [hc] at ht
      simp [splitNl] at ht
      rcases ht with rfl | ht
      · simp
      · exact ih ht
    · obtain ⟨t0, ts, h⟩ := splitNl_exists_cons cs
      rw [splitNl_cons_of_ne cs hc h] at ht
      rcases List.mem_cons.mp ht with rfl | hts
      · intro hx
        rcases List.mem_cons.mp hx with he | hx0
        · exact hc he.symm
        · exact ih (h ▸ List.mem_cons_self t0 ts) hx0
      · exact ih (h ▸ List.mem_cons_of_mem t0 hts)

/-- Stripping only removes characters: membership is preserved. -/
theorem mem_of_mem_pyStrip {s : Str} {x : Char} (h : x ∈ pyStrip s) : x ∈ s := by
  unfold pyStrip at h
  rw [List.mem_reverse] at h
  have h1 := (List.dropWhile_sublist pyIsSpace).subset h
  rw [List.mem_reverse] at h1
  exact (List.dropWhile_sublist pyIsSpace).subset h1

/-- Dropping a satisfied prefix of an all-satisfying list leaves nothing. -/
theorem dropWhile_eq_nil_of_all {f : Char → Bool} :
    ∀ {s : Str}, (∀ x ∈ s, f x) → s.dropWhile f = [] := by
  intro s
  induction s with
  | nil => intro _; rfl
  | cons c cs ih =>
    intro h
    rw [List.dropWhile_cons, if_pos (h c (List.mem_cons_self c cs))]
    exact ih fun x hx => h x (List.mem_cons_of_mem c hx)

/-- An all-whitespace string strips to empty. -/
theorem pyStrip_eq_nil_of_all_space {s : Str} (h : ∀ x ∈ s, pyIsSpace x) :
    pyStrip s = [] := by
  unfold pyStrip
  rw [dropWhile_eq_nil_of_all h]
  rfl

/-- A string that strips to empty is all whitespace. -/
theorem all_space_of_pyStrip_eq_nil {s : Str} (h : pyStrip s = []) :
    ∀ x ∈ s, pyIsSpace x := by
  unfold pyStrip at h
  rw [List.reverse_eq_nil_iff, List.dropWhile_eq_nil_iff] at h
  have h2 : ∀ x ∈ s.dropWhile pyIsSpace, pyIsSpace x := fun x hx =>
    h x (List.mem_reverse.mpr hx)
  intro x hx
  rw [← List.takeWhile_append_dropWhile (p := pyIsSpace) (l := s),
    List.mem_append] at hx
  rcases hx with hx | hx
  · exact List.mem_takeWhile_imp hx
  · exact h2 x hx

/-- Every paragraph produced by the segmenter's splitting stage is nonempty
and newline-free. -/
theorem paragraphsOf_good (content : Str) :
    ∀ p ∈ paragraphsOf content, p ≠ [] ∧ '\n' ∉ p := by
  intro p hp
  unfold paragraphsOf at hp
  obtain ⟨hpmem, hpne⟩ := List.mem_filter.mp hp
  obtain ⟨line, hline, rfl⟩ := List.mem_map.mp hpmem
  exact ⟨by simpa using hpne,
    fun hx => not_nl_mem_splitNl hline (mem_of_mem_pyStrip hx)⟩

/-- The paragraphs represented by a loop state: those already folded into
closed segments, followed by those accumulated in `current_segment`. -/
def segMeasure (st : SegState) : List Str :=
  (st.segments.map splitNl).flatten ++
    (if st.current = [] then [] else splitNl st.current)

/-- One loop iteration over a nonempty newline-free paragraph appends
exactly that paragraph to the represented paragraph sequence. -/
theorem segMeasure_step (maxLen : Nat) (st : SegState) (p : Str)
    (hp : p ≠ []) (hnl : '\n' ∉ p) :
    segMeasure (stepPara maxLen st p) = segMeasure st ++ [p] := by
  rw [stepPara_closes_iff]
  split_ifs with hC
  · obtain ⟨hcur, -, -⟩ := hC
    simp [segMeasure, if_neg hcur, if_neg hp, splitNl_of_not_mem hnl,
      List.append_assoc]
  · by_cases hcur : st.current = []
    · simp [segMeasure, appendPara, hcur, if_neg hp, splitNl_of_not_mem hnl]
    · have hne : st.current ++ '\n' :: p ≠ [] := by simp
      simp [segMeasure, appendPara, if_neg hcur, if_neg hne,
        splitNl_append_nl, splitNl_of_not_mem hnl, List.append_assoc]

/-- The paragraph loop over nonempty newline-free paragraphs appends
exactly those paragraphs to the represented sequence. -/
theorem segMeasure_foldl (maxLen : Nat) :
    ∀ (ps : List Str) (st : SegState), (∀ p ∈ ps, p ≠ [] ∧ '\n' ∉ p) →
      segMeasure (ps.foldl (stepPara maxLen) st) = segMeasure st ++ ps := by
  intro ps
  induction ps with
  | nil => intro st _; simp
  | cons p rest ih =>
    intro st h
    have hp := h p (List.mem_cons_self p rest)
    rw [List.foldl_cons, ih _ fun q hq => h q (List.mem_cons_of_mem p hq),
      segMeasure_step maxLen st p hp.1 hp.2]
    simp

/-- Merging into the last segment concatenates the trailing pieces. -/
theorem mergeLast_flatten (cur : Str) :
    ∀ l : List Str, l ≠ [] →
      ((mergeLast l cur).map splitNl).flatten
        = (l.map splitNl).flatten ++ splitNl cur := by
  intro l
  induction l with
  | nil => intro h; exact absurd rfl h
  | cons s ss ih =>
    intro _
    cases ss with
    | nil => simp [mergeLast, splitNl_append_nl]
    | cons s' ss' =>
      simp only [mergeLast, List.map_cons, List.flatten_cons,
        ih (by simp), List.append_assoc]

/-- The merge step never empties the segment list. -/
theorem mergeLast_ne_nil (cur : Str) : ∀ l : List Str, mergeLast l cur ≠ [] := by
  intro l
  cases l with
  | nil => simp [mergeLast]
  | cons s ss => cases ss <;> simp [mergeLast]

/-- Finalizing preserves the represented paragraph sequence. -/
theorem finalize_flatten (st : SegState) :
    ((finalizeSegments st).map splitNl).flatten = segMeasure st := by
  unfold finalizeSegments segMeasure
  split_ifs with h1 h2
  · simp
  · rw [mergeLast_flatten _ _ h2.2]
  · simp

/-- A state representing at least one paragraph finalizes to a nonempty
segment list. -/
theorem finalize_ne_nil (st : SegState) (h : segMeasure st ≠ []) :
    finalizeSegments st ≠ [] := by
  unfold finalizeSegments
  split_ifs with h1 h2
  · intro hout
    exact h (by simp [segMeasure, hout, h1])
  · exact mergeLast_ne_nil _ _
  · simp

/-- Claim C8: splitting each produced segment on the newline delimiter and
concatenating the results in order yields exactly the stripped nonempty
lines of the original input — the original paragraph sequence. -/
theorem segments_round_trip (content : Str) :
    ((split_content_into_segments content 1500).map splitNl).flatten
      = paragraphsOf content := by
  unfold split_content_into_segments
  split_ifs with h0 hp hs
  · simp only [List.map_nil, List.flatten_nil]
    symm
    unfold paragraphsOf
    rw [List.filter_eq_nil_iff]
    intro a ha
    obtain ⟨line, hline, rfl⟩ := List.mem_map.mp ha
    simp [pyStrip_eq_nil_of_all_space fun x hx =>
      all_space_of_pyStrip_eq_nil h0 x (mem_of_mem_splitNl hline hx)]
  · simp [hp]
  · have hm := segMeasure_foldl 1500 (paragraphsOf content) ⟨[], [], 0⟩
      (paragraphsOf_good content)
    unfold segmentsOf at hs
    refine absurd hs (finalize_ne_nil _ ?_)
    rw [hm]
    simpa [segMeasure] using hp
  · unfold segmentsOf
    rw [finalize_flatten,
      segMeasure_foldl 1500 (paragraphsOf content) ⟨[], [], 0⟩
        (paragraphsOf_good content)]
    simp [segMeasure]

end NovelVoice
